import Mathlib

/-!
# FifoQueueAsync — verification of the spec against the source

Shallow embedding of the two implementations of `FifoQueueAsync`:

* `LL` — the linked-list-backed implementation (`src/unnamed/part_000`).
  A JS `Node` has a value and a `next` pointer; the queue holds `head`,
  `tail`, `length` and the drain policy (`dequeueWorkerCallback`,
  `dequeueBatchSize`, `dequeueDelay`, `manualStop`).
  We model the heap chain that is reachable from `head` as a list of
  (node-identity, value) pairs in head-to-tail order; `tailId` is the node
  identity that `this.tail` points at (or `none` for `null`); node
  identities are allocated from `nextId`, so JS pointer equality
  (`this.head === this.tail`) is identity equality on `Option Nat`.
  The only `next`-pointer mutation in the source is `this.tail.next =
  newNode` in `enqueue`, which — when `tail` is the last node of the chain,
  an invariant of every well-formed state — appends the new node at the
  end of the chain.

* `Arr` — the array-cursor implementation (`src/FifoQueueAsync.js`).
  The JS array `items` is a list of `Option` values (`none` models a hole
  created by `delete this.items[i]` or by a sparse write), with cursors
  `front` and `rear`.

The worker callback is modelled as an external observer: the state records
whether a function is installed (`hasWorker`, i.e. `dequeueWorkerCallback
!== null && typeof … === 'function'`), and every operation additionally
returns the list of calls made to the callback, each call being the pair
`(dequeuedElements, isEmpty)` the source passes to it.  JS `undefined` /
`null` results are `Option.none`; JS numbers that can be negative
(`batchSize` arguments, the policy `dequeueBatchSize`) are `Int`, and the
guarded `length` counter (its only decrement sits behind a `length === 0`
check) is `Nat`.

`setTimeout` re-entry of `startAutoDequeue` is modelled by
`startAutoDequeueStep` (one invocation of the body, also reporting whether
a further round was scheduled) and `runAuto` (chaining up to `fuel`
scheduled rounds, reporting whether a round was still pending when the
fuel ran out).
-/

namespace LL

/-- State of the linked-list queue (`src/unnamed/part_000`): the chain of
live nodes from `head` to `tail` as (identity, value) pairs, the node
identity `this.tail` points at, `this.length`, the identity allocator, and
the drain-policy fields of the constructor. -/
structure Queue (α : Type) where
  chain : List (Nat × α)
  tailId : Option Nat
  length : Nat
  nextId : Nat
  hasWorker : Bool
  dequeueBatchSize : Int
  dequeueDelay : Int
  manualStop : Bool
deriving Repr, DecidableEq

variable {α : Type}

/-- The constructor
`constructor(dequeueWorker, dequeueBatchSize, dequeueDelay, manualStop)`:
empty chain, `head = tail = null`, `length = 0`. -/
def init (hasWorker : Bool) (dequeueBatchSize dequeueDelay : Int)
    (manualStop : Bool) : Queue α :=
  { chain := [], tailId := none, length := 0, nextId := 0,
    hasWorker := hasWorker, dequeueBatchSize := dequeueBatchSize,
    dequeueDelay := dequeueDelay, manualStop := manualStop }

/-- The pointer `this.head`: identity of the first chain node, `none` for
`null`. -/
def headPtr (s : Queue α) : Option Nat :=
  s.chain.head?.map Prod.fst

/-- The values stored in the queue, head first. -/
def values (s : Queue α) : List α :=
  s.chain.map Prod.snd

/-- The node identities of the chain, head first. -/
def chainIds (s : Queue α) : List Nat :=
  s.chain.map Prod.fst

/-- `clear()`: `head = null; tail = null; length = 0`.  Drain-policy
fields are untouched. -/
def clear (s : Queue α) : Queue α :=
  { s with chain := [], tailId := none, length := 0 }

/-- `getDequeueElement()`: returns `null` if `length === 0`; otherwise
removes the head node (`this.tail = null` first when `this.head ===
this.tail`), decrements `length`, and returns the removed value.
The branch where `length !== 0` but `head` is `null` cannot arise from a
well-formed state (the JS would throw dereferencing `null`). -/
def getDequeueElement (s : Queue α) : Option α × Queue α :=
  if s.length = 0 then (none, s)
  else
    match s.chain with
    | [] => (none, s)
    | (i, v) :: rest =>
      let tailId := if (some i : Option Nat) = s.tailId then none else s.tailId
      (some v, { s with chain := rest, tailId := tailId, length := s.length - 1 })

/-- The loop `for(let i=dequeueLimit; i>0; i--) elements.push(this.getDequeueElement())`:
`n` iterations, results collected in execution order. -/
def dequeueLoop : Nat → Queue α → List (Option α) × Queue α
  | 0, s => ([], s)
  | n + 1, s =>
    let r := getDequeueElement s
    let rs := dequeueLoop n r.2
    (r.1 :: rs.1, rs.2)

/-- `getDequeueElements(batchSize = null)`: `dequeueLimit =
min(batchSize ?? this.dequeueBatchSize, queueSize)`, run the dequeue loop
that many times (zero times when the limit is not positive), then
`if (this.length === 0) this.clear()`. -/
def getDequeueElements (s : Queue α) (batchSize : Option Int) :
    List (Option α) × Queue α :=
  let queueSize : Int := (s.length : Int)
  let dequeueLimit : Int :=
    match batchSize with
    | none => min s.dequeueBatchSize queueSize
    | some b => min b queueSize
  let r := dequeueLoop dequeueLimit.toNat s
  let s2 := if r.2.length = 0 then clear r.2 else r.2
  (r.1, s2)

/-- `enqueue(value)`: allocate a new node; if `length === 0` it becomes
both `head` and `tail`, otherwise `this.tail.next = newNode; this.tail =
newNode` (appending after the tail node, which well-formedness places at
the end of the chain); increment `length`. -/
def enqueue (s : Queue α) (value : α) : Queue α :=
  let newNode := (s.nextId, value)
  if s.length = 0 then
    { s with chain := [newNode], tailId := some s.nextId,
             length := s.length + 1, nextId := s.nextId + 1 }
  else
    { s with chain := s.chain ++ [newNode], tailId := some s.nextId,
             length := s.length + 1, nextId := s.nextId + 1 }

/-- One call made to the worker callback: the `dequeuedElements` list and
the `isEmpty` flag passed to it. -/
abbrev WorkerCall (α : Type) := List (Option α) × Bool

/-- `dequeueWorker()`: when a callback function is installed, call it with
`(this.getDequeueElements(), this.length === 0)` — arguments evaluated
left to right, so the flag reads the length *after* the extraction. -/
def dequeueWorker (s : Queue α) : List (WorkerCall α) × Queue α :=
  if s.hasWorker then
    let r := getDequeueElements s none
    ([(r.1, r.2.length == 0)], r.2)
  else ([], s)

/-- `dequeue(batchSize = 1)`: when a worker callback is installed, run
`this.dequeueWorker()` and return `undefined` (first component `none`);
otherwise return `this.getDequeueElements(batchSize)`.  The `batchSize`
argument is the JS value passed (`none` models `null`; the declaration
default makes an omitted argument `1`). -/
def dequeue (s : Queue α) (batchSize : Option Int) :
    Option (List (Option α)) × List (WorkerCall α) × Queue α :=
  if s.hasWorker then
    let r := dequeueWorker s
    (none, r.1, r.2)
  else
    let r := getDequeueElements s batchSize
    (some r.1, [], r.2)

/-- `isEmpty()`: `this.length === 0`. -/
def isEmpty (s : Queue α) : Bool :=
  s.length == 0

/-- `size()`: `this.length`. -/
def size (s : Queue α) : Nat :=
  s.length

/-- `peek()`: `null` when empty, otherwise `this.head.value`. -/
def peek (s : Queue α) : Option α :=
  if isEmpty s then none else s.chain.head?.map Prod.snd

/-- `removeDequeueWorkerCallback()`: `this.dequeueWorkerCallback = null`. -/
def removeDequeueWorkerCallback (s : Queue α) : Queue α :=
  { s with hasWorker := false }

/-- `stopAutoDequeue()`: the source sets `this.manualStop = false`. -/
def stopAutoDequeue (s : Queue α) : Queue α :=
  { s with manualStop := false }

/-- One invocation of the body of `startAutoDequeue()`.  Components:
the JS return value (`some false` for the explicit `return false`, `none`
for `undefined`), the worker calls made, the resulting state, and whether
`setTimeout(() => this.startAutoDequeue(), this.dequeueDelay)` scheduled a
further round. -/
def startAutoDequeueStep (s : Queue α) :
    Option Bool × List (WorkerCall α) × Queue α × Bool :=
  if s.hasWorker = false then (some false, [], s, false)
  else if s.manualStop = false then
    if s.length ≠ 0 then
      let r := dequeueWorker s
      (none, r.1, r.2, true)
    else (none, [], s, false)
  else
    let r := dequeueWorker s
    (none, r.1, r.2, true)

/-- Chain of `startAutoDequeue` invocations: the initial synchronous call
followed by the timer-driven re-entries, up to `fuel` invocations.
Returns the concatenated worker calls, the final state, and whether a
scheduled round was still pending when the fuel ran out (`false` means
every deferred round has settled). -/
def runAuto : Nat → Queue α → List (WorkerCall α) × Queue α × Bool
  | 0, s => ([], s, true)
  | n + 1, s =>
    let r := startAutoDequeueStep s
    if r.2.2.2 then
      let rest := runAuto n r.2.2.1
      (r.2.1 ++ rest.1, rest.2.1, rest.2.2)
    else (r.2.1, r.2.2.1, false)

/-- Enqueue a list of values in order. -/
def enqueueAll (s : Queue α) (vs : List α) : Queue α :=
  vs.foldl enqueue s

/-- Well-formedness of a queue state: `length` counts the chain, `tail`
points at the last chain node, node identities are distinct and below the
allocator.  Every state reachable through the API satisfies this. -/
def WF (s : Queue α) : Prop :=
  s.length = s.chain.length ∧
  s.tailId = s.chain.getLast?.map Prod.fst ∧
  (chainIds s).Nodup ∧
  ∀ i ∈ chainIds s, i < s.nextId

instance (s : Queue α) : Decidable (WF s) := by
  unfold WF; infer_instance

/-- Equality of the drain-policy fields of two states. -/
def SameDrainPolicy (s t : Queue α) : Prop :=
  s.hasWorker = t.hasWorker ∧ s.dequeueBatchSize = t.dequeueBatchSize ∧
  s.dequeueDelay = t.dequeueDelay ∧ s.manualStop = t.manualStop

/-- The number of loop iterations `getDequeueElements` performs:
`min(batchSize ?? policy, queueSize)` clamped to zero. -/
def dequeueLimit (s : Queue α) (batchSize : Option Int) : Nat :=
  (match batchSize with
   | none => min s.dequeueBatchSize (s.length : Int)
   | some b => min b (s.length : Int)).toNat

/-- States reachable through the queue API from a freshly constructed
queue. -/
inductive Reachable : Queue α → Prop where
  | init (hw : Bool) (bs d : Int) (ms : Bool) : Reachable (init hw bs d ms)
  | enqueue {s : Queue α} (v : α) : Reachable s → Reachable (enqueue s v)
  | dequeueOne {s : Queue α} : Reachable s → Reachable (getDequeueElement s).2
  | dequeueBatch {s : Queue α} (b : Option Int) :
      Reachable s → Reachable (getDequeueElements s b).2
  | clear {s : Queue α} : Reachable s → Reachable (clear s)

/-- The spec's structural invariants: `length == 0` iff `head` and `tail`
are both `null`, and `head == tail` (pointer identity) iff `length <= 1`. -/
def Inv (s : Queue α) : Prop :=
  (s.length = 0 ↔ headPtr s = none ∧ s.tailId = none) ∧
  (headPtr s = s.tailId ↔ s.length ≤ 1)

/-- `n` successive calls of the public `dequeue` with batch size `1`,
collecting each call's return value. -/
def dequeueOneAtATime : Nat → Queue α → List (Option (List (Option α))) × Queue α
  | 0, s => ([], s)
  | n + 1, s =>
    let r := dequeue s (some 1)
    let rs := dequeueOneAtATime n r.2.2
    (r.1 :: rs.1, rs.2)

end LL

namespace Arr

/-- State of the array-cursor queue (`src/FifoQueueAsync.js`): the JS
array `items` (a `none` entry is a hole left by `delete` or a sparse
write), the cursors `front` and `rear`, and the constructor's policy
fields (this implementation has no `manualStop`). -/
structure Queue (α : Type) where
  items : List (Option α)
  front : Nat
  rear : Nat
  hasWorker : Bool
  dequeueBatchSize : Int
  dequeueDelay : Int
deriving Repr, DecidableEq

variable {α : Type}

/-- `constructor(dequeueWorker, dequeueBatchSize, dequeueDelay)`:
`items = []`, `front = 0`, `rear = 0`. -/
def init (hasWorker : Bool) (dequeueBatchSize dequeueDelay : Int) : Queue α :=
  { items := [], front := 0, rear := 0, hasWorker := hasWorker,
    dequeueBatchSize := dequeueBatchSize, dequeueDelay := dequeueDelay }

/-- `isEmpty()`: `this.front === this.rear`. -/
def isEmpty (s : Queue α) : Bool :=
  s.front == s.rear

/-- `size()`: `this.rear - this.front` (non-negative in every reachable
state, where `front ≤ rear`). -/
def size (s : Queue α) : Nat :=
  s.rear - s.front

/-- JS array assignment `l[i] = v`: overwrites in range, extends the
array with holes past the end. -/
def arrayWrite (l : List (Option α)) (i : Nat) (v : α) : List (Option α) :=
  if i < l.length then l.set i (some v)
  else l ++ List.replicate (i - l.length) none ++ [some v]

/-- `enqueue(element)`: `this.items[this.rear] = element; this.rear++`. -/
def enqueue (s : Queue α) (v : α) : Queue α :=
  { s with items := arrayWrite s.items s.rear v, rear := s.rear + 1 }

/-- `getDequeueElement()`: `null` when empty; otherwise read
`items[front]` (`undefined` — here `none` — for a hole or out-of-range
read), `delete` that slot, and advance `front`. -/
def getDequeueElement (s : Queue α) : Option α × Queue α :=
  if isEmpty s then (none, s)
  else
    ((s.items.get? s.front).join,
     { s with items := s.items.set s.front none, front := s.front + 1 })

/-- The extraction loop of `getDequeueElements`, `n` iterations. -/
def dequeueLoop : Nat → Queue α → List (Option α) × Queue α
  | 0, s => ([], s)
  | n + 1, s =>
    let r := getDequeueElement s
    let rs := dequeueLoop n r.2
    (r.1 :: rs.1, rs.2)

/-- `clear()`: `items = []; front = 0; rear = 0`. -/
def clear (s : Queue α) : Queue α :=
  { s with items := [], front := 0, rear := 0 }

/-- `getDequeueElements(batchSize = null)`: identical control flow to the
linked-list version, with `queueSize = this.size()` and the trailing
`if (this.isEmpty()) this.clear()`. -/
def getDequeueElements (s : Queue α) (batchSize : Option Int) :
    List (Option α) × Queue α :=
  let queueSize : Int := (size s : Int)
  let dequeueLimit : Int :=
    match batchSize with
    | none => min s.dequeueBatchSize queueSize
    | some b => min b queueSize
  let r := dequeueLoop dequeueLimit.toNat s
  let s2 := if isEmpty r.2 then clear r.2 else r.2
  (r.1, s2)

/-- `dequeueWorker()`: call the installed callback with
`(this.getDequeueElements(), this.isEmpty())`, flag read after the
extraction. -/
def dequeueWorker (s : Queue α) : List (LL.WorkerCall α) × Queue α :=
  if s.hasWorker then
    let r := getDequeueElements s none
    ([(r.1, isEmpty r.2)], r.2)
  else ([], s)

/-- `dequeue(batchSize = 1)`: worker path when a callback is installed,
otherwise `getDequeueElements(batchSize)`. -/
def dequeue (s : Queue α) (batchSize : Option Int) :
    Option (List (Option α)) × List (LL.WorkerCall α) × Queue α :=
  if s.hasWorker then
    let r := dequeueWorker s
    (none, r.1, r.2)
  else
    let r := getDequeueElements s batchSize
    (some r.1, [], r.2)

/-- `peek()`: `null` when empty, otherwise `this.items[this.front]`. -/
def peek (s : Queue α) : Option α :=
  if isEmpty s then none else (s.items.get? s.front).join

/-- `removeDequeueWorkerCallback()`: `this.dequeueWorkerCallback = null`. -/
def removeDequeueWorkerCallback (s : Queue α) : Queue α :=
  { s with hasWorker := false }

/-- The values stored in the queue, front first. -/
def values (s : Queue α) : List α :=
  (s.items.drop s.front).filterMap id

/-- The number of loop iterations `getDequeueElements` performs. -/
def dequeueLimit (s : Queue α) (batchSize : Option Int) : Nat :=
  (match batchSize with
   | none => min s.dequeueBatchSize (size s : Int)
   | some b => min b (size s : Int)).toNat

/-- Well-formedness of an array-cursor state: `rear` is the array length,
`front` does not exceed it, and no hole sits in the live window. -/
def WF (s : Queue α) : Prop :=
  s.front ≤ s.rear ∧ s.rear = s.items.length ∧
  ∀ o ∈ s.items.drop s.front, o.isSome

instance (s : Queue α) : Decidable (WF s) := by
  unfold WF; infer_instance

end Arr

namespace Equiv

/-- One call of the synchronous API, with its argument.  For `dequeue`
the argument is the JS value passed (`none` models `null`; an omitted
argument is `some 1` by the declaration default). -/
inductive Op (α : Type) where
  | enqueue (v : α)
  | dequeue (batchSize : Option Int)
  | peek
  | size
  | isEmpty
  | clear
deriving Repr, DecidableEq

/-- Observable return value of one API call. -/
inductive Out (α : Type) where
  | void
  | batch (l : List (Option α))
  | elem (o : Option α)
  | num (n : Nat)
  | bool (b : Bool)
deriving Repr, DecidableEq

variable {α : Type}

/-- Run one call against the linked-list implementation. -/
def runOpLL (s : LL.Queue α) : Op α → Out α × LL.Queue α
  | .enqueue v => (.void, LL.enqueue s v)
  | .dequeue b =>
    let r := LL.dequeue s b
    (match r.1 with
     | some l => .batch l
     | none => .void, r.2.2)
  | .peek => (.elem (LL.peek s), s)
  | .size => (.num (LL.size s), s)
  | .isEmpty => (.bool (LL.isEmpty s), s)
  | .clear => (.void, LL.clear s)

/-- Run one call against the array-cursor implementation. -/
def runOpArr (s : Arr.Queue α) : Op α → Out α × Arr.Queue α
  | .enqueue v => (.void, Arr.enqueue s v)
  | .dequeue b =>
    let r := Arr.dequeue s b
    (match r.1 with
     | some l => .batch l
     | none => .void, r.2.2)
  | .peek => (.elem (Arr.peek s), s)
  | .size => (.num (Arr.size s), s)
  | .isEmpty => (.bool (Arr.isEmpty s), s)
  | .clear => (.void, Arr.clear s)

/-- Run a call sequence against the linked-list implementation. -/
def runOpsLL (s : LL.Queue α) : List (Op α) → List (Out α) × LL.Queue α
  | [] => ([], s)
  | op :: ops =>
    let r := runOpLL s op
    let rs := runOpsLL r.2 ops
    (r.1 :: rs.1, rs.2)

/-- Run a call sequence against the array-cursor implementation. -/
def runOpsArr (s : Arr.Queue α) : List (Op α) → List (Out α) × Arr.Queue α
  | [] => ([], s)
  | op :: ops =>
    let r := runOpArr s op
    let rs := runOpsArr r.2 ops
    (r.1 :: rs.1, rs.2)

/-- Simulation relation for the worker-less synchronous API: both states
are well-formed, hold the same values in the same order, have no worker
installed, and agree on the policy batch size. -/
def Sim (l : LL.Queue α) (a : Arr.Queue α) : Prop :=
  LL.WF l ∧ Arr.WF a ∧ LL.values l = Arr.values a ∧
  l.hasWorker = false ∧ a.hasWorker = false ∧
  l.dequeueBatchSize = a.dequeueBatchSize

end Equiv

namespace LL

variable {α : Type}

theorem sameDrainPolicy_refl (s : Queue α) : SameDrainPolicy s s :=
  ⟨rfl, rfl, rfl, rfl⟩

theorem sameDrainPolicy_trans {s t u : Queue α}
    (h1 : SameDrainPolicy s t) (h2 : SameDrainPolicy t u) :
    SameDrainPolicy s u := by
  obtain ⟨a1, b1, c1, d1⟩ := h1
  obtain ⟨a2, b2, c2, d2⟩ := h2
  exact ⟨a1.trans a2, b1.trans b2, c1.trans c2, d1.trans d2⟩

theorem WF_init (hw : Bool) (bs d : Int) (ms : Bool) :
    WF (init hw bs d ms : Queue α) := by
  simp [WF, init, chainIds]

theorem clear_WF (s : Queue α) : WF (clear s) := by
  simp [WF, clear, chainIds]

theorem clear_policy (s : Queue α) : SameDrainPolicy s (clear s) :=
  ⟨rfl, rfl, rfl, rfl⟩

theorem clear_eq_self (s : Queue α) (h : WF s) (h0 : s.length = 0) :
    clear s = s := by
  obtain ⟨h1, h2, -, -⟩ := h
  have hc : s.chain = [] := List.length_eq_zero.mp (by omega)
  rw [hc, List.getLast?_nil, Option.map_none'] at h2
  show ({ s with chain := [], tailId := none, length := 0 } : Queue α) = s
  rw [← hc, ← h2, ← h0]

theorem enqueue_policy (s : Queue α) (v : α) :
    SameDrainPolicy s (enqueue s v) := by
  unfold enqueue
  split
  · exact ⟨rfl, rfl, rfl, rfl⟩
  · exact ⟨rfl, rfl, rfl, rfl⟩

/-- On a well-formed state `enqueue` appends the freshly allocated node at
the end of the chain (both source branches produce this shape). -/
theorem enqueue_eq (s : Queue α) (v : α) (h : WF s) :
    enqueue s v = { s with chain := s.chain ++ [(s.nextId, v)],
                           tailId := some s.nextId,
                           length := s.length + 1,
                           nextId := s.nextId + 1 } := by
  obtain ⟨h1, -, -, -⟩ := h
  unfold enqueue
  split
  · rename_i h0
    have hc : s.chain = [] := List.length_eq_zero.mp (by omega)
    simp [hc]
  · rfl

theorem enqueue_WF (s : Queue α) (v : α) (h : WF s) : WF (enqueue s v) := by
  obtain ⟨h1, h2, h3, h4⟩ := h
  rw [enqueue_eq s v ⟨h1, h2, h3, h4⟩]
  refine ⟨by simp [h1], by simp [List.getLast?_concat], ?_, ?_⟩
  · show (List.map Prod.fst (s.chain ++ [(s.nextId, v)])).Nodup
    rw [List.map_append, List.nodup_append]
    refine ⟨h3, List.nodup_singleton _, fun a ha hb => ?_⟩
    have := h4 a ha
    simp only [List.map_cons, List.map_nil, List.mem_singleton] at hb
    omega
  · intro i hi
    show i < s.nextId + 1
    have hi' : i ∈ List.map Prod.fst s.chain ++ [s.nextId] := by
      simpa [chainIds] using hi
    rcases List.mem_append.mp hi' with hm | hm
    · exact Nat.lt_succ_of_lt (h4 i hm)
    · simp only [List.mem_singleton] at hm
      omega

theorem values_enqueue (s : Queue α) (v : α) (h : WF s) :
    values (enqueue s v) = values s ++ [v] := by
  rw [enqueue_eq s v h]
  simp [values]

theorem length_enqueue (s : Queue α) (v : α) :
    (enqueue s v).length = s.length + 1 := by
  unfold enqueue
  split <;> rfl

/-- Reduction of `getDequeueElement` when the chain is a cons and the
length counter is non-zero. -/
theorem getDequeueElement_cons (s : Queue α) (i : Nat) (v : α)
    (rest : List (Nat × α)) (hch : s.chain = (i, v) :: rest)
    (hlen : s.length ≠ 0) :
    getDequeueElement s =
      (some v,
        { s with chain := rest,
                 tailId := if (some i : Option Nat) = s.tailId then none
                           else s.tailId,
                 length := s.length - 1 }) := by
  unfold getDequeueElement
  rw [if_neg hlen]
  split
  · rename_i heq
    rw [hch] at heq
    cases heq
  · rename_i i' v' rest' heq
    rw [hch] at heq
    cases heq
    rfl

/-- Values-level behaviour of `getDequeueElement` on a well-formed state:
it returns the first stored value (or `none` on the empty queue), leaves
the remaining values, decrements `length` (unless empty), keeps the state
well-formed and the drain policy and allocator untouched. -/
theorem getDequeueElement_spec (s : Queue α) (h : WF s) :
    (getDequeueElement s).1 = (values s).head? ∧
    values (getDequeueElement s).2 = (values s).tail ∧
    (getDequeueElement s).2.length = s.length - 1 ∧
    WF (getDequeueElement s).2 ∧
    SameDrainPolicy s (getDequeueElement s).2 ∧
    (getDequeueElement s).2.nextId = s.nextId := by
  obtain ⟨h1, h2, h3, h4⟩ := h
  by_cases h0 : s.length = 0
  · have hc : s.chain = [] := List.length_eq_zero.mp (by omega)
    have hred : getDequeueElement s = (none, s) := by
      unfold getDequeueElement
      rw [if_pos h0]
    rw [hred]
    exact ⟨by simp [values, hc], by simp [values, hc],
      by show s.length = s.length - 1; omega,
      ⟨h1, h2, h3, h4⟩, sameDrainPolicy_refl s, rfl⟩
  · cases hch : s.chain with
    | nil =>
      rw [hch] at h1
      simp at h1
      omega
    | cons nd rest =>
      obtain ⟨i, v⟩ := nd
      rw [getDequeueElement_cons s i v rest hch h0]
      have hvals : values s = v :: rest.map Prod.snd := by
        simp [values, hch]
      have hcid : chainIds s = i :: rest.map Prod.fst := by
        show List.map Prod.fst s.chain = _
        rw [hch]
        rfl
      have hids : i ∉ rest.map Prod.fst ∧ (rest.map Prod.fst).Nodup := by
        rw [hcid] at h3
        exact List.nodup_cons.mp h3
      have hlen' : s.length - 1 = rest.length := by
        rw [hch] at h1
        simp at h1
        omega
      refine ⟨by simp [hvals],
        by show List.map Prod.snd rest = (values s).tail; rw [hvals]; rfl,
        rfl, ?_, ⟨rfl, rfl, rfl, rfl⟩, rfl⟩
      cases rest with
      | nil =>
        have htid : s.tailId = some i := by
          rw [h2, hch]
          simp
        refine ⟨hlen', ?_, by simp [chainIds], by simp [chainIds]⟩
        rw [if_pos htid.symm]
        rfl
      | cons b bs =>
        have hbne : (b :: bs : List (Nat × α)) ≠ [] := by simp
        have htid : s.tailId = ((b :: bs).getLast?).map Prod.fst := by
          rw [h2, hch, List.getLast?_cons_cons]
        have hne : (some i : Option Nat) ≠ s.tailId := by
          rw [htid, List.getLast?_eq_getLast _ hbne, Option.map_some']
          intro hcontra
          rw [Option.some.injEq] at hcontra
          exact hids.1
            (hcontra ▸ List.mem_map_of_mem Prod.fst (List.getLast_mem hbne))
        rw [if_neg hne]
        exact ⟨hlen', htid, hids.2,
          fun j hj => h4 j (by rw [hcid]; exact List.mem_cons_of_mem _ hj)⟩

/-- The dequeue loop on a well-formed state: `n ≤ length` iterations
return the first `n` stored values in order, leave the rest, and preserve
well-formedness and the drain policy. -/
theorem dequeueLoop_spec (n : Nat) :
    ∀ s : Queue α, WF s → n ≤ s.length →
      (dequeueLoop n s).1 = ((values s).take n).map some ∧
      values (dequeueLoop n s).2 = (values s).drop n ∧
      (dequeueLoop n s).2.length = s.length - n ∧
      WF (dequeueLoop n s).2 ∧
      SameDrainPolicy s (dequeueLoop n s).2 := by
  induction n with
  | zero =>
    intro s h _
    exact ⟨by simp [dequeueLoop], by simp [dequeueLoop], by simp [dequeueLoop],
      h, sameDrainPolicy_refl s⟩
  | succ n ih =>
    intro s h hn
    obtain ⟨e1, e2, e3, e4, e5, -⟩ := getDequeueElement_spec s h
    obtain ⟨r1, r2, r3, r4, r5⟩ := ih (getDequeueElement s).2 e4 (by omega)
    have hvlen : (values s).length = s.length := by
      obtain ⟨h1, -, -, -⟩ := h
      simp [values, h1]
    have hvne : values s ≠ [] := by
      intro hc
      rw [hc] at hvlen
      simp at hvlen
      omega
    obtain ⟨v, vs, hv⟩ := List.exists_cons_of_ne_nil hvne
    refine ⟨?_, ?_, ?_, r4, sameDrainPolicy_trans e5 r5⟩
    · show (getDequeueElement s).1 ::
        (dequeueLoop n (getDequeueElement s).2).1 = _
      rw [r1, e1, e2, hv]
      simp
    · show values (dequeueLoop n (getDequeueElement s).2).2 = _
      rw [r2, e2, hv]
      simp
    · show (dequeueLoop n (getDequeueElement s).2).2.length = s.length - (n + 1)
      rw [r3, e3]
      omega

theorem dequeueLimit_le (s : Queue α) (b : Option Int) :
    dequeueLimit s b ≤ s.length := by
  unfold dequeueLimit
  cases b with
  | none => exact Int.toNat_le.mpr (min_le_right _ _)
  | some k => exact Int.toNat_le.mpr (min_le_right _ _)

/-- Batch extraction on a well-formed state: the returned list is the
first `dequeueLimit` values (each wrapped in `some`), the remaining
values, count, well-formedness and drain policy behave accordingly; the
trailing hygiene `clear` is invisible. -/
theorem getDequeueElements_spec (s : Queue α) (b : Option Int) (h : WF s) :
    (getDequeueElements s b).1 =
      ((values s).take (dequeueLimit s b)).map some ∧
    values (getDequeueElements s b).2 = (values s).drop (dequeueLimit s b) ∧
    (getDequeueElements s b).2.length = s.length - dequeueLimit s b ∧
    WF (getDequeueElements s b).2 ∧
    SameDrainPolicy s (getDequeueElements s b).2 := by
  obtain ⟨r1, r2, r3, r4, r5⟩ :=
    dequeueLoop_spec (dequeueLimit s b) s h (dequeueLimit_le s b)
  have hred : getDequeueElements s b =
      ((dequeueLoop (dequeueLimit s b) s).1,
       if (dequeueLoop (dequeueLimit s b) s).2.length = 0
       then clear (dequeueLoop (dequeueLimit s b) s).2
       else (dequeueLoop (dequeueLimit s b) s).2) := by
    cases b <;> rfl
  rw [hred]
  by_cases h0 : (dequeueLoop (dequeueLimit s b) s).2.length = 0
  · rw [if_pos h0, clear_eq_self _ r4 h0]
    exact ⟨r1, r2, r3, r4, r5⟩
  · rw [if_neg h0]
    exact ⟨r1, r2, r3, r4, r5⟩

/-- `getDequeueElements(null)` and `getDequeueElements(policy.batchSize)`
compute the same limit and hence coincide. -/
theorem getDequeueElements_none (s : Queue α) :
    getDequeueElements s none = getDequeueElements s (some s.dequeueBatchSize) :=
  rfl

theorem length_values (s : Queue α) (h : WF s) :
    (values s).length = s.length := by
  obtain ⟨h1, -, -, -⟩ := h
  simp [values, h1]

theorem dequeueLimit_natCast (s : Queue α) (k : Nat) :
    dequeueLimit s (some (k : Int)) = min k s.length := by
  show (min (k : Int) (s.length : Int)).toNat = min k s.length
  rw [← Nat.cast_min, Int.toNat_natCast]

theorem dequeueLimit_neg (s : Queue α) (k : Int) (hk : k < 0) :
    dequeueLimit s (some k) = 0 := by
  show (min k (s.length : Int)).toNat = 0
  have hle : min k (s.length : Int) ≤ k := min_le_left _ _
  generalize hm : min k (s.length : Int) = m at hle ⊢
  omega

/-- `dequeue` with no worker installed is `getDequeueElements`, makes no
worker call, and returns the batch. -/
theorem dequeue_noWorker (s : Queue α) (b : Option Int)
    (hw : s.hasWorker = false) :
    dequeue s b =
      (some (getDequeueElements s b).1, [], (getDequeueElements s b).2) := by
  unfold dequeue
  rw [hw]
  simp

/-- `dequeue` with a worker installed runs `dequeueWorker` — a single
worker call carrying the policy-sized batch and the emptiness flag read
after extraction — and returns `undefined`. -/
theorem dequeue_withWorker (s : Queue α) (b : Option Int)
    (hw : s.hasWorker = true) :
    dequeue s b =
      (none,
       [((getDequeueElements s none).1,
         (getDequeueElements s none).2.length == 0)],
       (getDequeueElements s none).2) := by
  unfold dequeue dequeueWorker
  rw [hw]
  simp

theorem some_ne_getLast?_map {l : List (Nat × α)} {i : Nat}
    (hne : l ≠ []) (hnm : i ∉ l.map Prod.fst) :
    (some i : Option Nat) ≠ (l.getLast?).map Prod.fst := by
  rw [List.getLast?_eq_getLast _ hne, Option.map_some']
  intro hcontra
  rw [Option.some.injEq] at hcontra
  exact hnm (hcontra ▸ List.mem_map_of_mem Prod.fst (List.getLast_mem hne))

/-- The spec's two structural invariants follow from well-formedness. -/
theorem WF_Inv (s : Queue α) (h : WF s) : Inv s := by
  obtain ⟨h1, h2, h3, h4⟩ := h
  cases hch : s.chain with
  | nil =>
    have h0 : s.length = 0 := by rw [h1, hch]; rfl
    have hh : headPtr s = none := by simp [headPtr, hch]
    have ht : s.tailId = none := by
      rw [h2, hch, List.getLast?_nil, Option.map_none']
    refine ⟨by simp [h0, hh, ht], by simp [hh, ht, h0]⟩
  | cons nd rest =>
    obtain ⟨i, v⟩ := nd
    have hh : headPtr s = some i := by simp [headPtr, hch]
    have h0 : s.length = rest.length + 1 := by rw [h1, hch]; rfl
    cases rest with
    | nil =>
      have ht : s.tailId = some i := by
        rw [h2, hch, List.getLast?_singleton, Option.map_some']
      refine ⟨by simp [h0, hh, ht], by simp [hh, ht, h0]⟩
    | cons b bs =>
      have htl : s.tailId = ((b :: bs).getLast?).map Prod.fst := by
        rw [h2, hch, List.getLast?_cons_cons]
      have hnm : i ∉ (b :: bs).map Prod.fst := by
        have hcid : chainIds s = i :: (b :: bs).map Prod.fst := by
          show List.map Prod.fst s.chain = _
          rw [hch]
          rfl
        rw [hcid] at h3
        exact (List.nodup_cons.mp h3).1
      have hne := some_ne_getLast?_map (l := b :: bs) (by simp) hnm
      constructor
      · simp [h0, hh]
      · rw [hh]
        constructor
        · intro hc
          exact absurd (hc.trans htl) hne
        · intro hle
          rw [h0, List.length_cons] at hle
          omega

/-- Every reachable state is well-formed. -/
theorem reachable_WF {s : Queue α} (h : Reachable s) : WF s := by
  induction h with
  | init hw bs d ms => exact WF_init hw bs d ms
  | enqueue v _ ih => exact enqueue_WF _ v ih
  | dequeueOne _ ih => exact (getDequeueElement_spec _ ih).2.2.2.1
  | dequeueBatch b _ ih => exact (getDequeueElements_spec _ b ih).2.2.2.1
  | clear _ ih => exact clear_WF _

/-- Enqueueing a list of values appends them, preserving well-formedness
and the drain policy. -/
theorem enqueueAll_spec (vs : List α) :
    ∀ s : Queue α, WF s →
      WF (enqueueAll s vs) ∧
      values (enqueueAll s vs) = values s ++ vs ∧
      SameDrainPolicy s (enqueueAll s vs) := by
  induction vs with
  | nil =>
    intro s h
    exact ⟨h, by simp [enqueueAll], sameDrainPolicy_refl s⟩
  | cons v vs ih =>
    intro s h
    obtain ⟨w, hv, hp⟩ := ih (enqueue s v) (enqueue_WF s v h)
    refine ⟨w, ?_, sameDrainPolicy_trans (enqueue_policy s v) hp⟩
    show values (enqueueAll (enqueue s v) vs) = _
    rw [hv, values_enqueue s v h]
    simp

/-- Dequeuing one element at a time from a well-formed worker-less queue
returns the first `n` stored values, in order, one singleton batch per
call. -/
theorem dequeueOneAtATime_spec (n : Nat) :
    ∀ s : Queue α, WF s → s.hasWorker = false → n ≤ s.length →
      (dequeueOneAtATime n s).1 =
        ((values s).take n).map (fun v => some [some v]) := by
  induction n with
  | zero =>
    intro s _ _ _
    simp [dequeueOneAtATime]
  | succ n ih =>
    intro s h hw hn
    obtain ⟨g1, g2, g3, g4, g5⟩ := getDequeueElements_spec s (some 1) h
    have hlim : dequeueLimit s (some 1) = 1 := by
      show (min (1 : Int) (s.length : Int)).toNat = 1
      rw [min_eq_left (by exact_mod_cast (show (1 : Nat) ≤ s.length by omega))]
      rfl
    have hw' : (getDequeueElements s (some 1)).2.hasWorker = false := by
      obtain ⟨p1, -, -, -⟩ := g5
      rw [← p1]
      exact hw
    have hvlen := length_values s h
    obtain ⟨v, vs, hv⟩ := List.exists_cons_of_ne_nil (l := values s) (by
      intro hc
      rw [hc] at hvlen
      simp at hvlen
      omega)
    have hrec := ih (getDequeueElements s (some 1)).2 g4 hw'
      (by rw [g3, hlim]; omega)
    show (dequeue s (some 1)).1 ::
      (dequeueOneAtATime n (dequeue s (some 1)).2.2).1 = _
    rw [dequeue_noWorker s (some 1) hw]
    dsimp only
    rw [hrec, g1, g2, hlim, hv]
    simp

/-- `peek` on a well-formed state is the first stored value. -/
theorem peek_spec (s : Queue α) (h : WF s) : peek s = (values s).head? := by
  obtain ⟨h1, h2, h3, h4⟩ := h
  unfold peek
  by_cases h0 : s.length = 0
  · have hc : s.chain = [] := List.length_eq_zero.mp (by omega)
    rw [if_pos (by simp [isEmpty, h0])]
    simp [values, hc]
  · rw [if_neg (by simp [isEmpty, h0])]
    cases hch : s.chain with
    | nil =>
      rw [hch] at h1
      simp at h1
      omega
    | cons nd rest =>
      obtain ⟨i, v⟩ := nd
      simp [values, hch]

/-- `isEmpty` on a well-formed state tests whether any value is stored. -/
theorem isEmpty_spec (s : Queue α) (h : WF s) :
    isEmpty s = ((values s).length == 0) := by
  rw [isEmpty, length_values s h]

end LL

namespace Arr

variable {α : Type}

theorem filterMap_id_cons_some (v : α) (l : List (Option α)) :
    ((some v :: l).filterMap id) = v :: l.filterMap id := rfl

theorem filterMap_id_length (l : List (Option α))
    (h : ∀ o ∈ l, o.isSome) : (l.filterMap id).length = l.length := by
  induction l with
  | nil => rfl
  | cons o l ih =>
    obtain ⟨v, rfl⟩ := Option.isSome_iff_exists.mp (h o (by simp))
    rw [filterMap_id_cons_some, List.length_cons, List.length_cons,
      ih (fun o ho => h o (List.mem_cons_of_mem _ ho))]

theorem arrInit_WF (hw : Bool) (bs d : Int) : WF (init hw bs d : Queue α) := by
  refine ⟨Nat.le_refl 0, rfl, ?_⟩
  intro o ho
  simp [init] at ho

theorem size_eq_values_length (s : Queue α) (h : WF s) :
    (values s).length = size s := by
  obtain ⟨h1, h2, h3⟩ := h
  unfold values size
  rw [filterMap_id_length _ h3, List.length_drop]
  omega

/-- Decomposition of the live window of a non-empty well-formed state. -/
theorem window_cons (s : Queue α) (h : WF s) (hne : s.front ≠ s.rear) :
    ∃ v rest, s.items.drop s.front = some v :: rest ∧
      s.items.get? s.front = some (some v) ∧
      s.items.drop (s.front + 1) = rest ∧ ∀ o ∈ rest, o.isSome := by
  obtain ⟨h1, h2, h3⟩ := h
  have hd : s.items.drop s.front ≠ [] := by
    rw [ne_eq, List.drop_eq_nil_iff]
    omega
  obtain ⟨o, rest, ho⟩ := List.exists_cons_of_ne_nil hd
  obtain ⟨v, hv⟩ := Option.isSome_iff_exists.mp (h3 o (by rw [ho]; simp))
  subst hv
  refine ⟨v, rest, ho, ?_, ?_,
    fun o' ho' => h3 o' (by rw [ho]; exact List.mem_cons_of_mem _ ho')⟩
  · rw [List.get?_eq_getElem?]
    have hge := List.getElem?_drop s.items s.front 0
    rw [ho] at hge
    simpa using hge.symm
  · rw [← List.tail_drop, ho]
    rfl

/-- Values-level behaviour of the array-cursor `getDequeueElement` on a
well-formed state, mirroring the linked-list lemma. -/
theorem arrGetDequeueElement_spec (s : Queue α) (h : WF s) :
    (getDequeueElement s).1 = (values s).head? ∧
    values (getDequeueElement s).2 = (values s).tail ∧
    size (getDequeueElement s).2 = size s - 1 ∧
    WF (getDequeueElement s).2 ∧
    (getDequeueElement s).2.hasWorker = s.hasWorker ∧
    (getDequeueElement s).2.dequeueBatchSize = s.dequeueBatchSize := by
  have h' := h
  obtain ⟨h1, h2, h3⟩ := h'
  by_cases he : s.front = s.rear
  · have hred : getDequeueElement s = (none, s) := by
      unfold getDequeueElement
      rw [if_pos (by simp [isEmpty, he])]
    have hv : values s = [] := by
      unfold values
      rw [List.drop_eq_nil_of_le (by omega)]
      rfl
    rw [hred, hv]
    exact ⟨rfl, rfl, by show size s = size s - 1; unfold size; omega,
      h, rfl, rfl⟩
  · obtain ⟨v, rest, hwin, hget, hdrop1, hrest⟩ := window_cons s h he
    have hred : getDequeueElement s =
        ((s.items.get? s.front).join,
         { s with items := s.items.set s.front none,
                  front := s.front + 1 }) := by
      unfold getDequeueElement
      rw [if_neg (by simp [isEmpty, he])]
    rw [hred]
    have hv : values s = v :: rest.filterMap id := by
      unfold values
      rw [hwin]
      rfl
    have hdropset : (s.items.set s.front none).drop (s.front + 1) =
        s.items.drop (s.front + 1) := by
      rw [List.drop_set, if_pos (by omega)]
    refine ⟨by rw [hget]; simp [hv], ?_, ?_, ?_, rfl, rfl⟩
    · show ((s.items.set s.front none).drop (s.front + 1)).filterMap id = _
      rw [hdropset, hdrop1, hv]
      rfl
    · show s.rear - (s.front + 1) = size s - 1
      unfold size
      omega
    · refine ⟨by show s.front + 1 ≤ s.rear; omega,
        by show s.rear = (s.items.set s.front none).length;
           rw [List.length_set]; exact h2, ?_⟩
      intro o ho
      rw [hdropset, hdrop1] at ho
      exact hrest o ho

/-- The array-cursor dequeue loop on a well-formed state. -/
theorem arrDequeueLoop_spec (n : Nat) :
    ∀ s : Queue α, WF s → n ≤ size s →
      (dequeueLoop n s).1 = ((values s).take n).map some ∧
      values (dequeueLoop n s).2 = (values s).drop n ∧
      size (dequeueLoop n s).2 = size s - n ∧
      WF (dequeueLoop n s).2 ∧
      (dequeueLoop n s).2.hasWorker = s.hasWorker ∧
      (dequeueLoop n s).2.dequeueBatchSize = s.dequeueBatchSize := by
  induction n with
  | zero =>
    intro s h _
    exact ⟨by simp [dequeueLoop], by simp [dequeueLoop],
      by simp [dequeueLoop], h, rfl, rfl⟩
  | succ n ih =>
    intro s h hn
    obtain ⟨e1, e2, e3, e4, e5, e6⟩ := arrGetDequeueElement_spec s h
    obtain ⟨r1, r2, r3, r4, r5, r6⟩ := ih (getDequeueElement s).2 e4 (by omega)
    have hvlen := size_eq_values_length s h
    have hvne : values s ≠ [] := by
      intro hc
      rw [hc] at hvlen
      simp at hvlen
      omega
    obtain ⟨v, vs, hv⟩ := List.exists_cons_of_ne_nil hvne
    refine ⟨?_, ?_, ?_, r4, ?_, ?_⟩
    · show (getDequeueElement s).1 ::
        (dequeueLoop n (getDequeueElement s).2).1 = _
      rw [r1, e1, e2, hv]
      simp
    · show values (dequeueLoop n (getDequeueElement s).2).2 = _
      rw [r2, e2, hv]
      simp
    · show size (dequeueLoop n (getDequeueElement s).2).2 = size s - (n + 1)
      rw [r3, e3]
      omega
    · show (dequeueLoop n (getDequeueElement s).2).2.hasWorker = s.hasWorker
      rw [r5, e5]
    · show (dequeueLoop n (getDequeueElement s).2).2.dequeueBatchSize =
        s.dequeueBatchSize
      rw [r6, e6]

theorem arrDequeueLimit_le (s : Queue α) (b : Option Int) :
    dequeueLimit s b ≤ size s := by
  unfold dequeueLimit
  cases b with
  | none => exact Int.toNat_le.mpr (min_le_right _ _)
  | some k => exact Int.toNat_le.mpr (min_le_right _ _)

theorem arrClear_WF (s : Queue α) : WF (clear s) := by
  refine ⟨Nat.le_refl 0, rfl, ?_⟩
  intro o ho
  simp [clear] at ho

/-- The array-cursor `isEmpty` on a well-formed state tests whether any
value is stored. -/
theorem arrIsEmpty_spec (s : Queue α) (h : WF s) :
    isEmpty s = ((values s).length == 0) := by
  have hsz := size_eq_values_length s h
  obtain ⟨h1, -, -⟩ := h
  rw [hsz]
  unfold isEmpty size
  by_cases hfr : s.front = s.rear
  · simp [hfr]
  · have hf : (s.front == s.rear) = false := by simp [hfr]
    have hs : (s.rear - s.front == 0) = false := by
      simp only [beq_eq_false_iff_ne, ne_eq]
      omega
    rw [hf, hs]

/-- Batch extraction on a well-formed array-cursor state. -/
theorem arrGetDequeueElements_spec (s : Queue α) (b : Option Int) (h : WF s) :
    (getDequeueElements s b).1 =
      ((values s).take (dequeueLimit s b)).map some ∧
    values (getDequeueElements s b).2 = (values s).drop (dequeueLimit s b) ∧
    size (getDequeueElements s b).2 = size s - dequeueLimit s b ∧
    WF (getDequeueElements s b).2 ∧
    (getDequeueElements s b).2.hasWorker = s.hasWorker ∧
    (getDequeueElements s b).2.dequeueBatchSize = s.dequeueBatchSize := by
  obtain ⟨r1, r2, r3, r4, r5, r6⟩ :=
    arrDequeueLoop_spec (dequeueLimit s b) s h (arrDequeueLimit_le s b)
  have hred : getDequeueElements s b =
      ((dequeueLoop (dequeueLimit s b) s).1,
       if isEmpty (dequeueLoop (dequeueLimit s b) s).2
       then clear (dequeueLoop (dequeueLimit s b) s).2
       else (dequeueLoop (dequeueLimit s b) s).2) := by
    cases b <;> rfl
  rw [hred]
  by_cases h0 : isEmpty (dequeueLoop (dequeueLimit s b) s).2 = true
  · have hsz : size (dequeueLoop (dequeueLimit s b) s).2 = 0 := by
      have := arrIsEmpty_spec _ r4
      rw [h0] at this
      have hlv := size_eq_values_length _ r4
      have : ((values (dequeueLoop (dequeueLimit s b) s).2).length == 0) = true :=
        this.symm
      rw [Nat.beq_eq_true_eq] at this
      omega
    have hvals : values (dequeueLoop (dequeueLimit s b) s).2 = [] := by
      have hlv := size_eq_values_length _ r4
      rw [hsz] at hlv
      exact List.length_eq_zero.mp hlv
    rw [if_pos h0]
    refine ⟨r1, ?_, ?_, arrClear_WF _, ?_, ?_⟩
    · show ([] : List (Option α)).filterMap id = _
      rw [← r2, hvals]
      rfl
    · show 0 - 0 = size s - dequeueLimit s b
      omega
    · show (dequeueLoop (dequeueLimit s b) s).2.hasWorker = s.hasWorker
      exact r5
    · show (dequeueLoop (dequeueLimit s b) s).2.dequeueBatchSize =
        s.dequeueBatchSize
      exact r6
  · rw [if_neg h0]
    exact ⟨r1, r2, r3, r4, r5, r6⟩

/-- The array-cursor `peek` on a well-formed state is the first stored
value. -/
theorem arrPeek_spec (s : Queue α) (h : WF s) : peek s = (values s).head? := by
  obtain ⟨h1, h2, h3⟩ := h
  unfold peek
  by_cases he : s.front = s.rear
  · rw [if_pos (by simp [isEmpty, he])]
    have hv : values s = [] := by
      unfold values
      rw [List.drop_eq_nil_of_le (by omega)]
      rfl
    rw [hv]
    rfl
  · obtain ⟨v, rest, hwin, hget, -, -⟩ := window_cons s ⟨h1, h2, h3⟩ he
    rw [if_neg (by simp [isEmpty, he])]
    rw [hget]
    unfold values
    rw [hwin]
    rfl

/-- `enqueue` appends the value on a well-formed state. -/
theorem enqueue_spec (s : Queue α) (v : α) (h : WF s) :
    values (enqueue s v) = values s ++ [v] ∧
    WF (enqueue s v) ∧
    (enqueue s v).hasWorker = s.hasWorker ∧
    (enqueue s v).dequeueBatchSize = s.dequeueBatchSize := by
  obtain ⟨h1, h2, h3⟩ := h
  have hwrite : arrayWrite s.items s.rear v = s.items ++ [some v] := by
    unfold arrayWrite
    rw [if_neg (by omega)]
    rw [show s.rear - s.items.length = 0 by omega]
    simp
  have hdrop : (s.items ++ [some v]).drop s.front =
      s.items.drop s.front ++ [some v] :=
    List.drop_append_of_le_length (by omega)
  constructor
  · show ((arrayWrite s.items s.rear v).drop s.front).filterMap id = _
    rw [hwrite, hdrop, List.filterMap_append]
    rfl
  refine ⟨⟨by show s.front ≤ s.rear + 1; omega, ?_, ?_⟩, rfl, rfl⟩
  · show s.rear + 1 = (arrayWrite s.items s.rear v).length
    rw [hwrite]
    simp
    omega
  · intro o ho
    have ho' : o ∈ (arrayWrite s.items s.rear v).drop s.front := ho
    rw [hwrite, hdrop] at ho'
    rcases List.mem_append.mp ho' with hm | hm
    · exact h3 o hm
    · simp only [List.mem_singleton] at hm
      rw [hm]
      rfl

/-- Array-cursor `dequeue` with no worker installed is
`getDequeueElements`. -/
theorem arrDequeue_noWorker (s : Queue α) (b : Option Int)
    (hw : s.hasWorker = false) :
    dequeue s b =
      (some (getDequeueElements s b).1, [], (getDequeueElements s b).2) := by
  unfold dequeue
  rw [hw]
  simp

end Arr

namespace Equiv

variable {α : Type}

theorem limit_eq (l : LL.Queue α) (a : Arr.Queue α)
    (hlen : l.length = Arr.size a)
    (hbs : l.dequeueBatchSize = a.dequeueBatchSize) (b : Option Int) :
    LL.dequeueLimit l b = Arr.dequeueLimit a b := by
  unfold LL.dequeueLimit Arr.dequeueLimit
  cases b with
  | none => rw [hlen, hbs]
  | some k => rw [hlen]

/-- One synchronous API call preserves the simulation relation and
produces the same observable output on both implementations. -/
theorem sim_step (l : LL.Queue α) (a : Arr.Queue α) (h : Sim l a)
    (op : Op α) :
    (runOpLL l op).1 = (runOpArr a op).1 ∧
    Sim (runOpLL l op).2 (runOpArr a op).2 := by
  obtain ⟨hwl, hwa, hv, hnl, hna, hbs⟩ := h
  cases op with
  | enqueue v =>
    obtain ⟨av, aw, ah, ab⟩ := Arr.enqueue_spec a v hwa
    obtain ⟨p1, p2, -, -⟩ := LL.enqueue_policy l v
    refine ⟨rfl, LL.enqueue_WF l v hwl, aw, ?_, ?_, ?_, ?_⟩
    · show LL.values (LL.enqueue l v) = Arr.values (Arr.enqueue a v)
      rw [LL.values_enqueue l v hwl, av, hv]
    · show (LL.enqueue l v).hasWorker = false
      rw [← p1]
      exact hnl
    · show (Arr.enqueue a v).hasWorker = false
      rw [ah]
      exact hna
    · show (LL.enqueue l v).dequeueBatchSize = (Arr.enqueue a v).dequeueBatchSize
      rw [← p2, ab]
      exact hbs
  | dequeue b =>
    have hlen : l.length = Arr.size a := by
      rw [← LL.length_values l hwl, hv, Arr.size_eq_values_length a hwa]
    have hlim := limit_eq l a hlen hbs b
    obtain ⟨g1, g2, g3, g4, g5⟩ := LL.getDequeueElements_spec l b hwl
    obtain ⟨gp1, gp2, -, -⟩ := g5
    obtain ⟨a1, a2, a3, a4, a5, a6⟩ := Arr.arrGetDequeueElements_spec a b hwa
    have hdl := LL.dequeue_noWorker l b hnl
    have hda := Arr.arrDequeue_noWorker a b hna
    have houtL : (runOpLL l (Op.dequeue b)).1 =
        Out.batch (LL.getDequeueElements l b).1 := by
      show (match (LL.dequeue l b).1 with
            | some x => Out.batch x
            | none => Out.void) = _
      rw [hdl]
    have houtA : (runOpArr a (Op.dequeue b)).1 =
        Out.batch (Arr.getDequeueElements a b).1 := by
      show (match (Arr.dequeue a b).1 with
            | some x => Out.batch x
            | none => Out.void) = _
      rw [hda]
    have hstL : (runOpLL l (Op.dequeue b)).2 = (LL.getDequeueElements l b).2 := by
      show (LL.dequeue l b).2.2 = _
      rw [hdl]
    have hstA : (runOpArr a (Op.dequeue b)).2 = (Arr.getDequeueElements a b).2 := by
      show (Arr.dequeue a b).2.2 = _
      rw [hda]
    constructor
    · rw [houtL, houtA, g1, a1, hv, hlim]
    · rw [hstL, hstA]
      refine ⟨g4, a4, ?_, ?_, ?_, ?_⟩
      · rw [g2, a2, hv, hlim]
      · rw [← gp1]
        exact hnl
      · rw [a5]
        exact hna
      · rw [← gp2, a6]
        exact hbs
  | peek =>
    refine ⟨?_, hwl, hwa, hv, hnl, hna, hbs⟩
    show Out.elem (LL.peek l) = Out.elem (Arr.peek a)
    rw [LL.peek_spec l hwl, Arr.arrPeek_spec a hwa, hv]
  | size =>
    refine ⟨?_, hwl, hwa, hv, hnl, hna, hbs⟩
    show Out.num (LL.size l) = Out.num (Arr.size a)
    have : LL.size l = Arr.size a := by
      show l.length = Arr.size a
      rw [← LL.length_values l hwl, hv, Arr.size_eq_values_length a hwa]
    rw [this]
  | isEmpty =>
    refine ⟨?_, hwl, hwa, hv, hnl, hna, hbs⟩
    show Out.bool (LL.isEmpty l) = Out.bool (Arr.isEmpty a)
    rw [LL.isEmpty_spec l hwl, Arr.arrIsEmpty_spec a hwa, hv]
  | clear =>
    refine ⟨rfl, LL.clear_WF l, Arr.arrClear_WF a, rfl, ?_, ?_, ?_⟩
    · show (LL.clear l).hasWorker = false
      exact hnl
    · show (Arr.clear a).hasWorker = false
      exact hna
    · show (LL.clear l).dequeueBatchSize = (Arr.clear a).dequeueBatchSize
      exact hbs

/-- A whole call sequence preserves the simulation relation and produces
identical output traces. -/
theorem sim_runOps (ops : List (Op α)) :
    ∀ (l : LL.Queue α) (a : Arr.Queue α), Sim l a →
      (runOpsLL l ops).1 = (runOpsArr a ops).1 ∧
      Sim (runOpsLL l ops).2 (runOpsArr a ops).2 := by
  induction ops with
  | nil =>
    intro l a h
    exact ⟨rfl, h⟩
  | cons op ops ih =>
    intro l a h
    obtain ⟨ho, hs⟩ := sim_step l a h op
    obtain ⟨ro, rs⟩ := ih _ _ hs
    constructor
    · show (runOpLL l op).1 :: (runOpsLL (runOpLL l op).2 ops).1 =
        (runOpArr a op).1 :: (runOpsArr (runOpArr a op).2 ops).1
      rw [ho, ro]
    · exact rs

/-- Freshly constructed queues with the same policy are in simulation. -/
theorem sim_init (bs d : Int) (ms : Bool) :
    Sim (LL.init false bs d ms : LL.Queue α) (Arr.init false bs d) :=
  ⟨LL.WF_init false bs d ms, Arr.arrInit_WF false bs d, rfl, rfl, rfl, rfl⟩

end Equiv

namespace LL

variable {α : Type}

theorem runAuto_succ (k : Nat) (s : Queue α) :
    runAuto (k + 1) s =
      if (startAutoDequeueStep s).2.2.2 = true then
        ((startAutoDequeueStep s).2.1 ++
           (runAuto k (startAutoDequeueStep s).2.2.1).1,
         (runAuto k (startAutoDequeueStep s).2.2.1).2)
      else ((startAutoDequeueStep s).2.1,
            (startAutoDequeueStep s).2.2.1, false) :=
  rfl

/-- Once the timer chain has settled (no round pending), additional fuel
does not change the outcome: no further rounds run. -/
theorem runAuto_stable (n : Nat) :
    ∀ (k : Nat) (s : Queue α), (runAuto k s).2.2 = false →
      runAuto (k + n) s = runAuto k s := by
  intro k
  induction k with
  | zero =>
    intro s h
    exact absurd h (by simp [runAuto])
  | succ k ih =>
    intro s h
    rw [runAuto_succ k s] at h
    by_cases hr : (startAutoDequeueStep s).2.2.2 = true
    · rw [if_pos hr] at h
      have hp : (runAuto k (startAutoDequeueStep s).2.2.1).2.2 = false := h
      have he : k + 1 + n = (k + n) + 1 := by omega
      rw [he, runAuto_succ (k + n) s, runAuto_succ k s, if_pos hr, if_pos hr,
        ih (startAutoDequeueStep s).2.2.1 hp]
    · have he : k + 1 + n = (k + n) + 1 := by omega
      rw [he, runAuto_succ (k + n) s, runAuto_succ k s, if_neg hr, if_neg hr]

end LL

/-- C1: starting from a freshly constructed queue with no worker
configured, after enqueueing any sequence of values, dequeuing one
element at a time (`dequeue(1)`, the declaration default) returns exactly
those values in insertion order, one singleton batch per call — no
reordering ever occurs. -/
theorem C1_fifo_order {α : Type} (vs : List α) (bs d : Int) (ms : Bool) :
    (LL.dequeueOneAtATime vs.length
        (LL.enqueueAll (LL.init false bs d ms) vs)).1 =
      vs.map (fun v => some [some v]) := by
  have h0 := LL.WF_init (α := α) false bs d ms
  obtain ⟨w, hvv, hp⟩ := LL.enqueueAll_spec vs (LL.init false bs d ms) h0
  obtain ⟨p1, -, -, -⟩ := hp
  have hw : (LL.enqueueAll (LL.init false bs d ms) vs).hasWorker = false := by
    rw [← p1]
    rfl
  have hvals : LL.values (LL.enqueueAll (LL.init false bs d ms) vs) = vs := by
    rw [hvv]
    rfl
  have hlen : vs.length ≤ (LL.enqueueAll (LL.init false bs d ms) vs).length := by
    rw [← LL.length_values _ w, hvals]
  rw [LL.dequeueOneAtATime_spec vs.length _ w hw hlen, hvals]
  simp

/-- C2: on a well-formed queue of size `S = size()`, `getDequeueElements`
with requested batch size `k` returns an ordered sequence of exactly
`min k S` elements — the first `min k S` stored values, in FIFO order —
and afterwards `size()` equals `S - min k S`; when the argument is absent
(`null`), the configured policy `dequeueBatchSize` is used in its place. -/
theorem C2_dequeueBatch_min {α : Type} (s : LL.Queue α) (k : Nat)
    (h : LL.WF s) :
    ((LL.getDequeueElements s (some (k : Int))).1).length
        = min k (LL.size s) ∧
    (LL.getDequeueElements s (some (k : Int))).1 =
        ((LL.values s).take (min k (LL.size s))).map some ∧
    LL.size (LL.getDequeueElements s (some (k : Int))).2
        = LL.size s - min k (LL.size s) ∧
    LL.getDequeueElements s none
        = LL.getDequeueElements s (some s.dequeueBatchSize) := by
  obtain ⟨g1, g2, g3, -, -⟩ := LL.getDequeueElements_spec s (some (k : Int)) h
  have hlim := LL.dequeueLimit_natCast s k
  refine ⟨?_, ?_, ?_, LL.getDequeueElements_none s⟩
  · rw [g1, hlim, List.length_map, List.length_take, LL.length_values s h]
    show min (min k s.length) s.length = min k s.length
    rw [min_assoc, min_self]
  · rw [g1, hlim]
    rfl
  · show (LL.getDequeueElements s (some (k : Int))).2.length
      = s.length - min k s.length
    rw [g3, hlim]

/-- C2 witness: a queue holding `[10, 20, 30]` with `k = 2`. -/
theorem C2_dequeueBatch_min_witness :
    ((LL.getDequeueElements (LL.enqueueAll (LL.init false 5 10 false)
        [10, 20, 30]) (some ((2 : Nat) : Int))).1).length
      = min 2 (LL.size (LL.enqueueAll (LL.init false 5 10 false)
          [10, 20, 30])) ∧
    (LL.getDequeueElements (LL.enqueueAll (LL.init false 5 10 false)
        [10, 20, 30]) (some ((2 : Nat) : Int))).1 =
      ((LL.values (LL.enqueueAll (LL.init false 5 10 false)
          [10, 20, 30])).take (min 2 (LL.size (LL.enqueueAll
            (LL.init false 5 10 false) [10, 20, 30])))).map some ∧
    LL.size (LL.getDequeueElements (LL.enqueueAll (LL.init false 5 10 false)
        [10, 20, 30]) (some ((2 : Nat) : Int))).2
      = LL.size (LL.enqueueAll (LL.init false 5 10 false) [10, 20, 30])
        - min 2 (LL.size (LL.enqueueAll (LL.init false 5 10 false)
            [10, 20, 30])) ∧
    LL.getDequeueElements (LL.enqueueAll (LL.init false 5 10 false)
        [10, 20, 30]) none
      = LL.getDequeueElements (LL.enqueueAll (LL.init false 5 10 false)
          [10, 20, 30])
          (some (LL.enqueueAll (LL.init false 5 10 false)
            [10, 20, 30]).dequeueBatchSize) :=
  C2_dequeueBatch_min (LL.enqueueAll (LL.init false 5 10 false) [10, 20, 30])
    2 (by decide)

/-- C3: with a worker installed, `dequeue` ignores its batch-size
argument (any two arguments yield identical outcomes), triggers exactly
one worker invocation whose batch is the policy-sized extraction
(`getDequeueElements(null)`, which equals
`getDequeueElements(policy.batchSize)`) and whose flag is `length == 0`
read after the extraction, and returns no value; with no worker
installed, `dequeue(batchSize)` returns `getDequeueElements(batchSize)`. -/
theorem C3_worker_coupling {α : Type} (s : LL.Queue α) (b b' : Option Int) :
    (s.hasWorker = true →
      LL.dequeue s b =
        (none,
         [((LL.getDequeueElements s none).1,
           (LL.getDequeueElements s none).2.length == 0)],
         (LL.getDequeueElements s none).2) ∧
      LL.dequeue s b = LL.dequeue s b' ∧
      LL.getDequeueElements s none
        = LL.getDequeueElements s (some s.dequeueBatchSize)) ∧
    (s.hasWorker = false →
      LL.dequeue s b =
        (some (LL.getDequeueElements s b).1, [],
         (LL.getDequeueElements s b).2)) := by
  constructor
  · intro hw
    refine ⟨LL.dequeue_withWorker s b hw, ?_, LL.getDequeueElements_none s⟩
    rw [LL.dequeue_withWorker s b hw, LL.dequeue_withWorker s b' hw]
  · intro hw
    exact LL.dequeue_noWorker s b hw

/-- C3 witness: a queue holding `[1, 2, 3]` with a worker and policy
batch size `2`; the batch-size arguments `5` and `7` are both ignored. -/
theorem C3_worker_coupling_witness :
    LL.dequeue (LL.enqueueAll (LL.init true 2 10 false) [1, 2, 3])
        (some 5) =
      (none,
       [((LL.getDequeueElements (LL.enqueueAll (LL.init true 2 10 false)
            [1, 2, 3]) none).1,
         (LL.getDequeueElements (LL.enqueueAll (LL.init true 2 10 false)
            [1, 2, 3]) none).2.length == 0)],
       (LL.getDequeueElements (LL.enqueueAll (LL.init true 2 10 false)
          [1, 2, 3]) none).2) ∧
    LL.dequeue (LL.enqueueAll (LL.init true 2 10 false) [1, 2, 3])
        (some 5) =
      LL.dequeue (LL.enqueueAll (LL.init true 2 10 false) [1, 2, 3])
        (some 7) ∧
    LL.getDequeueElements (LL.enqueueAll (LL.init true 2 10 false)
        [1, 2, 3]) none
      = LL.getDequeueElements (LL.enqueueAll (LL.init true 2 10 false)
          [1, 2, 3])
          (some (LL.enqueueAll (LL.init true 2 10 false)
            [1, 2, 3]).dequeueBatchSize) :=
  (C3_worker_coupling (LL.enqueueAll (LL.init true 2 10 false) [1, 2, 3])
    (some 5) (some 7)).1 rfl

/-- C4: what the source actually does at the stop scenario.
`stopAutoDequeue` merely sets `manualStop = false`, so the round that
fires next behaves as in automatic mode.  On a non-empty queue (one
element `7`, policy batch `1`, `manualStop = true`) the pending round
still invokes the worker once AND schedules a further round — it does not
decline to reschedule, so rounds keep running, contradicting the claim.
On an empty queue the pending round declines to reschedule but performs
no worker call at all, contradicting the claim's "still executes its one
worker call".  The claim matches the source's own documentation
("stops auto dequeue procedure"); the code's flag inversion does not. -/
theorem C4_stop_does_not_stop :
    (LL.startAutoDequeueStep (LL.stopAutoDequeue
        (LL.enqueue (LL.init true 1 10 true) (7 : Nat)))).2.2.2 = true ∧
    (LL.startAutoDequeueStep (LL.stopAutoDequeue
        (LL.enqueue (LL.init true 1 10 true) (7 : Nat)))).2.1 =
      [([some 7], true)] ∧
    (LL.startAutoDequeueStep (LL.stopAutoDequeue
        (LL.init true 1 10 true : LL.Queue Nat))).2.1 = [] ∧
    (LL.startAutoDequeueStep (LL.stopAutoDequeue
        (LL.init true 1 10 true : LL.Queue Nat))).2.2.2 = false := by
  refine ⟨by decide, by decide, by decide, by decide⟩

/-- C5 counterexample: in the claim's scenario (worker configured,
`manualStop = false`, five elements, policy batch size `2`) the round
whose extraction empties the queue still schedules a further round:
after exactly the three worker rounds have run the queue is empty, yet a
deferred re-entry is still pending — refuting "no further rounds are
scheduled after the round whose extraction empties the queue". -/
theorem C5_emptying_round_schedules_again :
    (LL.runAuto 3 (LL.enqueueAll (LL.init true 2 10 false)
        [1, 2, 3, 4, 5])).1.length = 3 ∧
    (LL.runAuto 3 (LL.enqueueAll (LL.init true 2 10 false)
        [1, 2, 3, 4, 5])).2.1.length = 0 ∧
    (LL.runAuto 3 (LL.enqueueAll (LL.init true 2 10 false)
        [1, 2, 3, 4, 5])).2.2 = true := by
  refine ⟨by decide, by decide, by decide⟩

/-- C5 (amended): in the scenario, running the auto-dequeue chain to
settlement invokes the worker exactly three times, with batches of sizes
2, 2, 1 in FIFO order, the last invocation receiving `isEmpty = true`;
the round whose extraction empties the queue schedules one further round,
which invokes no worker and schedules nothing, after which the chain is
settled — additional fuel changes nothing. -/
theorem C5_auto_drain_trace :
    (LL.runAuto 4 (LL.enqueueAll (LL.init true 2 10 false)
        [1, 2, 3, 4, 5])).1 =
      [([some 1, some 2], false), ([some 3, some 4], false),
       ([some 5], true)] ∧
    (LL.runAuto 4 (LL.enqueueAll (LL.init true 2 10 false)
        [1, 2, 3, 4, 5])).2.2 = false ∧
    (∀ n : Nat,
      LL.runAuto (4 + n) (LL.enqueueAll (LL.init true 2 10 false)
          [1, 2, 3, 4, 5]) =
        LL.runAuto 4 (LL.enqueueAll (LL.init true 2 10 false)
          [1, 2, 3, 4, 5])) := by
  refine ⟨by decide, by decide, ?_⟩
  intro n
  exact LL.runAuto_stable n 4 _ (by decide)

/-- C6: `startAutoDequeue` with no worker configured returns the failure
indicator `false` rather than raising an error, performs no worker call,
schedules nothing (stays idle), and leaves the state — in particular the
queue contents and length — unchanged. -/
theorem C6_start_without_worker {α : Type} (s : LL.Queue α)
    (h : s.hasWorker = false) :
    LL.startAutoDequeueStep s = (some false, [], s, false) := by
  unfold LL.startAutoDequeueStep
  rw [h]
  simp

/-- C6 witness: a worker-less queue holding one element. -/
theorem C6_start_without_worker_witness :
    LL.startAutoDequeueStep (LL.enqueue (LL.init false 3 10 true) (1 : Nat))
      = (some false, [], LL.enqueue (LL.init false 3 10 true) 1, false) :=
  C6_start_without_worker _ rfl

/-- C7: the structural invariants — `length == 0` iff `head` and `tail`
are both empty, and `head == tail` (pointer identity) iff `length <= 1` —
hold in the initial state and are preserved by every operation
(`enqueue`, `dequeueOne`, `dequeueBatch`, `clear`): they hold in every
reachable state. -/
theorem C7_structural_invariants {α : Type} (s : LL.Queue α)
    (h : LL.Reachable s) : LL.Inv s :=
  LL.WF_Inv s (LL.reachable_WF h)

/-- C7 witness: the state reached by one enqueue on a fresh queue. -/
theorem C7_structural_invariants_witness :
    LL.Inv (LL.enqueue (LL.init false 1 10 false) (5 : Nat)) :=
  C7_structural_invariants _
    (LL.Reachable.enqueue 5 (LL.Reachable.init false 1 10 false))

/-- C8: `clear()` resets `head` and `tail` to empty and `length` to `0`
while leaving every drain-policy field (worker, batch size, delay,
`manualStop`) unchanged; on an already-empty (well-formed) queue it
changes nothing at all. -/
theorem C8_clear_frame {α : Type} (s : LL.Queue α) :
    (LL.clear s).chain = [] ∧ (LL.clear s).tailId = none ∧
    (LL.clear s).length = 0 ∧
    (LL.clear s).hasWorker = s.hasWorker ∧
    (LL.clear s).dequeueBatchSize = s.dequeueBatchSize ∧
    (LL.clear s).dequeueDelay = s.dequeueDelay ∧
    (LL.clear s).manualStop = s.manualStop ∧
    (LL.WF s → s.length = 0 → LL.clear s = s) :=
  ⟨rfl, rfl, rfl, rfl, rfl, rfl, rfl,
   fun h h0 => LL.clear_eq_self s h h0⟩

/-- C8 witness: `clear` on a freshly constructed (empty) queue is the
identity. -/
theorem C8_clear_frame_witness :
    LL.clear (LL.init false 1 10 false : LL.Queue Nat)
      = LL.init false 1 10 false :=
  (C8_clear_frame (LL.init false 1 10 false : LL.Queue Nat)).2.2.2.2.2.2.2
    (by decide) (by decide)

/-- C9: with no worker configured and a negative requested batch size,
`dequeue(k)` returns an empty sequence, makes no worker call, and leaves
the well-formed state — in particular head, tail, and length —
unchanged: the clamp `min(k, size)` is negative, so the extraction loop
body never runs. -/
theorem C9_negative_batch {α : Type} (s : LL.Queue α) (k : Int)
    (h : LL.WF s) (hk : k < 0) (hw : s.hasWorker = false) :
    LL.dequeue s (some k) = (some [], [], s) := by
  rw [LL.dequeue_noWorker s (some k) hw]
  have hlim := LL.dequeueLimit_neg s k hk
  have hred : LL.getDequeueElements s (some k) =
      ((LL.dequeueLoop (LL.dequeueLimit s (some k)) s).1,
       if (LL.dequeueLoop (LL.dequeueLimit s (some k)) s).2.length = 0
       then LL.clear (LL.dequeueLoop (LL.dequeueLimit s (some k)) s).2
       else (LL.dequeueLoop (LL.dequeueLimit s (some k)) s).2) := rfl
  rw [hred, hlim]
  show (some ([] : List (Option α)), ([] : List (LL.WorkerCall α)),
    if s.length = 0 then LL.clear s else s) = (some [], [], s)
  by_cases h0 : s.length = 0
  · rw [if_pos h0, LL.clear_eq_self s h h0]
  · rw [if_neg h0]

/-- C9 witness: a queue holding `[1, 2]` with requested batch size `-3`. -/
theorem C9_negative_batch_witness :
    LL.dequeue (LL.enqueueAll (LL.init false 1 10 false) [1, 2])
        (some (-3)) =
      (some [], [], LL.enqueueAll (LL.init false 1 10 false) [1, 2]) :=
  C9_negative_batch (LL.enqueueAll (LL.init false 1 10 false) [1, 2])
    (-3) (by decide) (by decide) rfl

/-- C10: the array-cursor implementation (`src/FifoQueueAsync.js`) and
the linked-list implementation (`src/unnamed/part_000`) are
observationally equivalent on the synchronous API when no worker is
configured: any sequence of `enqueue`, `dequeue`, `peek`, `size`,
`isEmpty`, `clear` calls against freshly constructed queues with the same
policy produces the same sequence of return values. -/
theorem C10_observational_equivalence {α : Type} (bs d : Int) (ms : Bool)
    (ops : List (Equiv.Op α)) :
    (Equiv.runOpsLL (LL.init false bs d ms) ops).1 =
      (Equiv.runOpsArr (Arr.init false bs d) ops).1 :=
  (Equiv.sim_runOps ops _ _ (Equiv.sim_init bs d ms)).1
